import Mathlib

/-!
Verification of the BibTeX → HTML bibliography renderer (`web/bib2html.py`).

An `Entry` models the Python entry dict produced by `load_bibliography`:
a mapping from lower-cased field names to string values, kept as an
association list in insertion order (Python dicts preserve insertion
order; setting an existing key keeps its position).

Python string semantics are modelled on `List Char`:
* `str.strip` / whitespace classes are modelled on their ASCII fragment
  (space, tab, newline, carriage return, vertical tab, form feed);
* `str.lower` is modelled by `Char.toLower` (ASCII fragment);
* `a in b` is substring containment;
* `str.isdigit` is true on nonempty strings of characters with Unicode
  property Numeric_Type=Digit or Decimal; it is modelled here on the
  fragment consisting of the ASCII digits together with the superscript
  digits U+00B9, U+00B2, U+00B3 (which have Numeric_Type=Digit but are
  rejected by `int()`);
* `int(s)` — on the digit-string domain on which the renderer calls it —
  succeeds exactly on nonempty strings of decimal digits and is modelled
  as an `Option Int`, `none` standing for the `ValueError` it raises
  otherwise.
-/

namespace Bib2Html

/-- One bibliography entry: field name → value association list
(Python dict with insertion order). -/
abbrev Entry := List (String × String)

/-- Python whitespace test (`str.strip`, regex `\s`), ASCII fragment. -/
def isWs (c : Char) : Bool :=
  c == ' ' || c == '\t' || c == '\n' || c == '\r' || c == '\x0b' || c == '\x0c'

/-- `str.strip` on a character list: drop whitespace from both ends. -/
def pyStripL (l : List Char) : List Char :=
  ((l.dropWhile isWs).reverse.dropWhile isWs).reverse

/-- `str.strip`. -/
def pyStrip (s : String) : String :=
  String.mk (pyStripL s.data)

/-- `entry.get(k, '')`: value of the (first) pair with key `k`, else
`""` (an entry dict has one pair per key). -/
def eget : Entry → String → String
  | [], _ => ""
  | p :: e, k => if p.1 == k then p.2 else eget e k

/-- `entry[k] = v`: replace the value of an existing key in place,
otherwise append the new pair at the end (Python dict insertion
order). -/
def eset : Entry → String → String → Entry
  | [], k, v => [(k, v)]
  | p :: e, k, v => if p.1 == k then (p.1, v) :: e else p :: eset e k v

/-- `field.startswith('_')`. -/
def startsUnderscore (s : String) : Bool :=
  match s.data with
  | c :: _ => c == '_'
  | [] => false

/-- `sub in hay` on character lists (Python substring containment). -/
def containsSub (sub : List Char) : List Char → Bool
  | [] => sub.isEmpty
  | c :: t => sub.isPrefixOf (c :: t) || containsSub sub t

/-- `str.lower`, ASCII fragment. -/
def pyLower (s : String) : String :=
  String.mk (s.data.map Char.toLower)


/-! ### The page-range substitution `re.sub(r'\s*-{1,2}\s*', '–', p)`

The regex scans left to right for the leftmost match: a greedy run of
whitespace, one or two hyphens (greedily two), then a greedy run of
whitespace; each match is replaced by one en-dash and scanning resumes
after it.  A match always contains a hyphen, whitespace not followed by
hyphens is left alone, and a match can only start with whitespace or a
hyphen, so the scan is realised by the one-pass machine below. -/

/-- State of the dash-substitution scan:
`norm` outside any candidate match; `w buf` inside a pending whitespace
run (`buf` holds it, reversed); `h1`/`h2` after one/two hyphens of the
current match; `trail` absorbing the match's trailing whitespace. -/
inductive DashSt where
  | norm
  | w (buf : List Char)
  | h1
  | h2
  | trail

/-- One left-to-right pass of `re.sub(r'\s*-{1,2}\s*', '–', ·)`;
`acc` is the output so far, reversed. -/
def subDashGo : List Char → DashSt → List Char → List Char
  | [], st, acc =>
    (match st with
     | .norm => acc
     | .w buf => buf ++ acc
     | .h1 => '–' :: acc
     | .h2 => '–' :: acc
     | .trail => '–' :: acc).reverse
  | c :: cs, .norm, acc =>
    if isWs c then subDashGo cs (.w [c]) acc
    else if c == '-' then subDashGo cs .h1 acc
    else subDashGo cs .norm (c :: acc)
  | c :: cs, .w buf, acc =>
    if isWs c then subDashGo cs (.w (c :: buf)) acc
    else if c == '-' then subDashGo cs .h1 acc
    else subDashGo cs .norm (c :: (buf ++ acc))
  | c :: cs, .h1, acc =>
    if c == '-' then subDashGo cs .h2 acc
    else if isWs c then subDashGo cs .trail acc
    else subDashGo cs .norm (c :: '–' :: acc)
  | c :: cs, .h2, acc =>
    if isWs c then subDashGo cs .trail acc
    else if c == '-' then subDashGo cs .h1 ('–' :: acc)
    else subDashGo cs .norm (c :: '–' :: acc)
  | c :: cs, .trail, acc =>
    if isWs c then subDashGo cs .trail acc
    else if c == '-' then subDashGo cs .h1 ('–' :: acc)
    else subDashGo cs .norm (c :: '–' :: acc)

/-- `re.sub(r'\s*-{1,2}\s*', '–', s)`. -/
def pySubDashes (s : String) : String :=
  String.mk (subDashGo s.data .norm [])


/-! ### The author/editor splitter `re.split(r'\s+and\s+', s, flags=re.IGNORECASE)`

A separator is a nonempty whitespace run, the letters `and` in either
case, and a nonempty whitespace run, matched greedily left to right.  A
separator can only start with whitespace, and whenever a candidate fails
mid-way the only position at which a new candidate can start inside the
consumed text is the failing character itself (and only if it is
whitespace), so the split is realised by the one-pass machine below. -/

/-- State of the name-splitting scan: `norm` outside a candidate
separator; `w`/`wa`/`wan`/`wand` after the whitespace run and a prefix
of `and` (`buf` holds the consumed characters, reversed, for re-emission
on failure); `sep` after a complete separator, absorbing its trailing
whitespace. -/
inductive AndSt where
  | norm
  | w (buf : List Char)
  | wa (buf : List Char)
  | wan (buf : List Char)
  | wand (buf : List Char)
  | sep

/-- Case-insensitive letter test (`re.IGNORECASE`), ASCII fragment. -/
def lcEq (c t : Char) : Bool := c.toLower == t

/-- One pass of `re.split(r'\s+and\s+', ·, flags=re.IGNORECASE)`;
`cur` is the current part (reversed), `acc` the finished parts
(reversed). -/
def splitAndGo : List Char → AndSt → List Char → List (List Char) → List (List Char)
  | [], st, cur, acc =>
    (match st with
     | .norm => (cur.reverse :: acc).reverse
     | .w buf => ((buf ++ cur).reverse :: acc).reverse
     | .wa buf => ((buf ++ cur).reverse :: acc).reverse
     | .wan buf => ((buf ++ cur).reverse :: acc).reverse
     | .wand buf => ((buf ++ cur).reverse :: acc).reverse
     | .sep => (cur.reverse :: acc).reverse)
  | c :: cs, .norm, cur, acc =>
    if isWs c then splitAndGo cs (.w [c]) cur acc
    else splitAndGo cs .norm (c :: cur) acc
  | c :: cs, .w buf, cur, acc =>
    if isWs c then splitAndGo cs (.w (c :: buf)) cur acc
    else if lcEq c 'a' then splitAndGo cs (.wa (c :: buf)) cur acc
    else splitAndGo cs .norm (c :: (buf ++ cur)) acc
  | c :: cs, .wa buf, cur, acc =>
    if lcEq c 'n' then splitAndGo cs (.wan (c :: buf)) cur acc
    else if isWs c then splitAndGo cs (.w [c]) (buf ++ cur) acc
    else splitAndGo cs .norm (c :: (buf ++ cur)) acc
  | c :: cs, .wan buf, cur, acc =>
    if lcEq c 'd' then splitAndGo cs (.wand (c :: buf)) cur acc
    else if isWs c then splitAndGo cs (.w [c]) (buf ++ cur) acc
    else splitAndGo cs .norm (c :: (buf ++ cur)) acc
  | c :: cs, .wand buf, cur, acc =>
    if isWs c then splitAndGo cs .sep [] (cur.reverse :: acc)
    else splitAndGo cs .norm (c :: (buf ++ cur)) acc
  | c :: cs, .sep, cur, acc =>
    if isWs c then splitAndGo cs .sep cur acc
    else splitAndGo cs .norm (c :: cur) acc

/-- `re.split(r'\s+and\s+', s, flags=re.IGNORECASE)`. -/
def pySplitAnd (s : String) : List String :=
  (splitAndGo s.data .norm [] []).map String.mk


/-! ### Author / name handling (`_parse_names`, `_format_name`,
`_format_name_list`, `_author_matches`) -/

/-- `_parse_names`: split an author/editor string on `\s+and\s+`
(case-insensitive), strip each part, drop empty parts. -/
def parse_names (name_str : String) : List String :=
  ((pySplitAnd name_str).map pyStrip).filter (fun p => p ≠ "")

/-- `_format_name`: convert a name to `Firstname Lastname` display form;
a name containing a comma is split at the first comma into
`last, first` and re-rendered as `first last`. -/
def format_name (name : String) : String :=
  let n := pyStripL name.data
  if n.contains ',' then
    let lastN := pyStripL (n.takeWhile (fun c => c != ','))
    let firstN := pyStripL (n.dropWhile (fun c => c != ',')).tail
    String.mk (firstN ++ ' ' :: lastN)
  else
    String.mk n

/-- `', '.join(l)`-style joining (`str.join`). -/
def joinSep (sep : String) : List String → String
  | [] => ""
  | x :: xs => xs.foldl (fun a b => a ++ sep ++ b) x

/-- The formatted name list of an author/editor string. -/
def fmtNames (name_str : String) : List String :=
  (parse_names name_str).map format_name

/-- `_format_name_list`: format a full author/editor string as
`A, B, C, and D` (`formatted[-1]` on the nonempty list is modelled by
`getLastD`). -/
def format_name_list (name_str : String) : String :=
  match fmtNames name_str with
  | [] => ""
  | [a] => a
  | [a, b] => a ++ " and " ++ b
  | l => joinSep ", " l.dropLast ++ ", and " ++ l.getLastD ""

/-- `_author_matches`: `filter_str.lower() in name_str.lower()`. -/
def author_matches (name_str : String) (filter_str : String) : Bool :=
  containsSub (pyLower filter_str).data (pyLower name_str).data


/-! ### Field helpers (`_get`, `_pages`, `_doi_link`) -/

/-- `_get(entry, *keys, default=dflt)`: the first key whose stripped
value is nonempty, else the default. -/
def pyGetD (entry : Entry) (keys : List String) (dflt : String) : String :=
  match keys with
  | [] => dflt
  | k :: ks =>
    let v := pyStrip (eget entry k)
    if v ≠ "" then v else pyGetD entry ks dflt

/-- `_get(entry, *keys)` with the default `''`. -/
def pyGet (entry : Entry) (keys : List String) : String :=
  pyGetD entry keys ""

/-- `_pages`: the rendered pages fragment, empty if there is no pages
field, otherwise `pp.&nbsp;` followed by the hyphen-normalised pages. -/
def pages_html (entry : Entry) : String :=
  let p := pyGet entry ["pages"]
  if p = "" then "" else "pp.&nbsp;" ++ pySubDashes p

/-- `pre.isPrefixOf s` on strings (`str.startswith`). -/
def startsWithStr (pre s : String) : Bool :=
  pre.data.isPrefixOf s.data

/-- `s.data.drop n` as a string. -/
def dropStr (n : Nat) (s : String) : String :=
  String.mk (s.data.drop n)

/-- `re.sub(r'^https?://(dx\.)?doi\.org/', '', d)`: the anchored pattern
matches at most once, on exactly one of four resolver prefixes (no
string starts with two of them), which is then removed. -/
def stripDoiResolver (d : String) : String :=
  if startsWithStr "https://dx.doi.org/" d then dropStr 19 d
  else if startsWithStr "https://doi.org/" d then dropStr 16 d
  else if startsWithStr "http://dx.doi.org/" d then dropStr 18 d
  else if startsWithStr "http://doi.org/" d then dropStr 15 d
  else d

/-- `_doi_link`. -/
def doi_link (doi : String) : String :=
  if doi = "" then ""
  else
    let d := pyStrip doi
    if startsWithStr "http" d then
      "DOI: <a href=\"" ++ d ++ "\">" ++ stripDoiResolver d ++ "</a>"
    else
      "DOI: <a href=\"https://doi.org/" ++ d ++ "\">" ++ d ++ "</a>"


/-! ### Venue rendering (`_venue_html`) -/

/-- `venue.endswith('.')`. -/
def endsWithDot (s : String) : Bool :=
  s.data.getLast? == some '.'

/-- `_venue_html`: build the venue/source HTML for one entry.  The
sequential `venue += ...` appends of the Python code are rendered as
string concatenations of conditional pieces. -/
def venue_html (entry : Entry) : String :=
  let etype := eget entry "_type"
  let url := pyGet entry ["url"]
  let doi := pyGet entry ["doi"]
  let booktitle := pyGet entry ["booktitle"]
  let journal := pyGet entry ["journal"]
  let publisher := pyGet entry ["publisher"]
  let school := pyGet entry ["school"]
  let series := pyGet entry ["series"]
  let volume := pyGet entry ["volume"]
  let number := pyGet entry ["number"]
  let address := pyGet entry ["address"]
  let isbn := pyGet entry ["isbn"]
  let note := pyGet entry ["note"]
  let editor := pyGet entry ["editor"]
  let pages := pages_html entry
  let venue :=
    if etype == "inproceedings" then
      (if booktitle ≠ "" then "In <i>" ++ booktitle ++ "</i>" else "")
        ++ (if address ≠ "" then ", " ++ address else "")
        ++ (if pages ≠ "" then ", " ++ pages else "")
    else if etype == "article" then
      let j :=
        if journal ≠ "" then
          "<i>" ++ journal ++ "</i>"
            ++ (if volume ≠ "" then
                  " <b>" ++ volume ++ "</b>"
                    ++ (if number ≠ "" then "(" ++ number ++ ")" else "")
                else "")
        else ""
      if pages ≠ "" then j ++ (if j ≠ "" then ", " else "") ++ pages else j
    else if etype == "book" then
      joinSep ". "
        ((if series ≠ "" then [series] else [])
          ++ (if publisher ≠ "" then [publisher] else [])
          ++ (if address ≠ "" then [address] else [])
          ++ (if isbn ≠ "" then ["ISBN " ++ isbn] else []))
    else if etype == "incollection" || etype == "inbook" then
      joinSep " "
        ((if editor ≠ "" then ["In " ++ format_name_list editor ++ " (ed.),"] else [])
          ++ (if booktitle ≠ "" then ["<i>" ++ booktitle ++ "</i>"] else [])
          ++ (if publisher ≠ "" then [publisher] else [])
          ++ (if pages ≠ "" then [pages] else []))
    else if etype == "phdthesis" || etype == "masterthesis" || etype == "mastersthesis" then
      (if containsSub "phd".data etype.data then "PhD thesis" else "Master\x27s thesis")
        ++ (if school ≠ "" then ", " ++ school else "")
    else if etype == "techreport" then
      let inst := pyGet entry ["institution"]
      let num := pyGet entry ["number"]
      "Technical Report"
        ++ (if num ≠ "" then " " ++ num else "")
        ++ (if inst ≠ "" then ", " ++ inst else "")
    else if etype == "proceedings" then
      joinSep ", "
        ((if publisher ≠ "" then [publisher] else [])
          ++ (if address ≠ "" then [address] else [])
          ++ (if isbn ≠ "" then ["ISBN " ++ isbn] else []))
    else
      note
  let links :=
    (if url ≠ "" then
       [if containsSub "aclanthology".data url.data
           || containsSub "aclweb.org/anthology".data url.data then
          "<a href=\"" ++ url ++ "\">ACL Anthology</a>"
        else
          "<a href=\"" ++ url ++ "\">" ++ url ++ "</a>"]
     else [])
      ++ (if doi ≠ "" then [doi_link doi] else [])
  let venue :=
    if links ≠ [] then
      let sep :=
        if venue ≠ "" && !endsWithDot venue then ". "
        else if venue ≠ "" then " " else ""
      venue ++ sep ++ joinSep "; " links
    else venue
  let venue :=
    if note ≠ "" && !containsSub note.data venue.data then
      venue ++ " (" ++ note ++ ")"
    else venue
  pyStrip venue

/-! ### Single-entry rendering (`_render_entry`) -/

/-- `_render_entry`: render a single bib entry as a styled `<div>`. -/
def render_entry (entry : Entry) : String :=
  let key := eget entry "_key"
  let year := pyGet entry ["year"]
  let title := pyGet entry ["title"]
  let url := pyGet entry ["url"]
  let author := pyGet entry ["author"]
  let editor := pyGet entry ["editor"]
  let person_raw := if author ≠ "" then author else editor
  let role_suffix := if author = "" && editor ≠ "" then " (eds)" else ""
  let person_str :=
    if person_raw ≠ "" then format_name_list person_raw ++ role_suffix else "Unknown"
  let title_el :=
    if url ≠ "" then "<a class=\"bib-title\" href=\"" ++ url ++ "\">" ++ title ++ "</a>"
    else "<span class=\"bib-title\">" ++ title ++ "</span>"
  let id_attr := if key ≠ "" then " id=\"" ++ key ++ "\"" else ""
  let person_year := person_str ++ " (" ++ year ++ ")."
  let venue := venue_html entry
  "<div class=\"bib-entry\"" ++ id_attr ++ ">\n  <span class=\"bib-meta\">"
    ++ person_year ++ "</span>\n  " ++ title_el ++ ".\n"
    ++ (if venue ≠ "" then "  <span class=\"bib-venue\">" ++ venue ++ "</span>\n" else "")
    ++ "</div>"


/-! ### Digit strings: `str.isdigit` and `int()` -/

/-- Characters accepted by `int()`: Unicode `Nd`, modelled on the ASCII
digits. -/
def pyDecimalDigit (c : Char) : Bool :=
  '0' ≤ c && c ≤ '9'

/-- Characters for which `str.isdigit` holds (Unicode `Numeric_Type` of
`Digit` or `Decimal`), modelled on the ASCII digits together with the
superscript digits `¹² ³` (U+00B9, U+00B2, U+00B3), which satisfy
`isdigit` but are rejected by `int()`. -/
def pyDigitChar (c : Char) : Bool :=
  pyDecimalDigit c || c == '¹' || c == '²' || c == '³'

/-- `s.isdigit()`: nonempty and all characters digits. -/
def pyIsdigit (s : String) : Bool :=
  s ≠ "" && s.data.all pyDigitChar

/-- `int(s)` on the digit-string domain on which the renderer calls it
(arguments that passed `isdigit`): the numeric value of a nonempty
string of decimal digits, `none` for the `ValueError` raised on any
other character. -/
def pyIntOpt (s : String) : Option Int :=
  if s ≠ "" && s.data.all pyDecimalDigit then
    some (Int.ofNat (s.data.foldl (fun a c => 10 * a + (c.toNat - 48)) 0))
  else none

/-- The sort key `int(y) if y.isdigit() else 0`, `none` for a raised
`ValueError`. -/
def yearKeyOpt (y : String) : Option Int :=
  if pyIsdigit y then pyIntOpt y else some 0

/-- The sort key where it is defined (`0` default is never read on the
paths on which the renderer uses it). -/
def keyD (y : String) : Int :=
  (yearKeyOpt y).getD 0


/-! ### Bibliography assembly (`render_bibliography`) -/

/-- The filtering step of `render_bibliography`: with a truthy
(nonempty) `author_filter`, keep the entries whose author-or-editor
field matches; otherwise keep all entries. -/
def visibleEntries (entries : List Entry) (author_filter : Option String) : List Entry :=
  match author_filter with
  | some f =>
    if f ≠ "" then
      entries.filter (fun e => author_matches (pyGet e ["author", "editor"]) f)
    else entries
  | none => entries

/-- `_get(e, 'year', default='undated')`: the year bucket of an entry. -/
def yearOf (e : Entry) : String :=
  pyGetD e ["year"] "undated"

/-- The keys of a Python dict built by repeated insertion: first
occurrences, in order. -/
def firstOccurrences (l : List String) : List String :=
  l.foldl (fun acc y => if y ∈ acc then acc else acc ++ [y]) []

/-- The keys of `by_year` (a `defaultdict` filled in visible-entry
order). -/
def yearKeysOf (entries : List Entry) (author_filter : Option String) : List String :=
  firstOccurrences ((visibleEntries entries author_filter).map yearOf)

/-- Stable insert for descending insertion sort: an element passes over
strictly greater keys and stops before the first key not above its own,
so equal keys stay in input order. -/
def insertDesc (key : String → Int) (x : String) : List String → List String
  | [] => [x]
  | y :: ys => if key x < key y then y :: insertDesc key x ys else x :: y :: ys

/-- `sorted(l, reverse=True, key=key)`: the stable descending sort,
realised as a stable insertion sort. -/
def sortDesc (key : String → Int) (l : List String) : List String :=
  l.foldr (insertDesc key) []

/-- The ordered year-section keys of `render_bibliography`:
`sorted(by_year.keys(), reverse=True, key=lambda y: int(y) if
y.isdigit() else 0)`; `none` models the `ValueError` raised when some
key passes `isdigit` but is rejected by `int()` (`sorted` evaluates the
key function on every element). -/
def sectionYears (entries : List Entry) (author_filter : Option String) :
    Option (List String) :=
  let ks := yearKeysOf entries author_filter
  if ks.all (fun y => (yearKeyOpt y).isSome) then some (sortDesc keyD ks) else none


/-- `int(y) // 10 * 10`, on nav years (which passed the sort's key
evaluation, so `int` is defined; the `getD` default is never read). -/
def decadeOf (y : String) : Int :=
  (pyIntOpt y).getD 0 / 10 * 10

/-- First occurrences of a list of decades, in order (insertion order of
the `by_decade` dict). -/
def firstOccurrencesInt (l : List Int) : List Int :=
  l.foldl (fun acc y => if y ∈ acc then acc else acc ++ [y]) []

/-- Stable insert for the descending decade sort. -/
def insertIntDesc (x : Int) : List Int → List Int
  | [] => [x]
  | y :: ys => if x < y then y :: insertIntDesc x ys else x :: y :: ys

/-- `sorted(decades, reverse=True)` (keys are distinct integers). -/
def sortIntDesc (l : List Int) : List Int :=
  l.foldr insertIntDesc []

/-- One navigation row: years of a decade as anchors joined by a
middle dot. -/
def navRow (ys : List String) : String :=
  joinSep " · " (ys.map (fun y => "<a href=\"#" ++ y ++ "\">" ++ y ++ "</a>"))

/-- The decade navigation bar of `render_bibliography`. -/
def navHtml (years : List String) : String :=
  let nav_years := years.filter (fun y => pyIsdigit y)
  let decades := sortIntDesc (firstOccurrencesInt (nav_years.map decadeOf))
  let row_strs := decades.map (fun d => navRow (nav_years.filter (fun y => decadeOf y == d)))
  "<p class=\"bib-nav\">\n  " ++ joinSep "\n  <br>\n  " row_strs ++ "\n</p>"

/-- One year section: heading plus that year's entries joined by blank
lines. -/
def sectionHtml (vis : List Entry) (year : String) : String :=
  let label := if year != "undated" then year else "Undated"
  let body := joinSep "\n\n" ((vis.filter (fun e => yearOf e == year)).map render_entry)
  "<h3 id=\"" ++ label ++ "\">" ++ label ++ "</h3>\n<div class=\"bib-section\">\n\n"
    ++ body ++ "\n\n</div>"

/-- `render_bibliography(entries, author_filter)`: the complete HTML
fragment, `none` modelling the `ValueError` described at
`sectionYears`. -/
def render_bibliography (entries : List Entry) (author_filter : Option String) :
    Option String :=
  match sectionYears entries author_filter with
  | none => none
  | some years =>
    let vis := visibleEntries entries author_filter
    some (navHtml years ++ "\n\n<hr>\n\n"
      ++ joinSep "\n\n\n" (years.map (sectionHtml vis)))

/-! ### CLI smoke test (`__main__`): the printed item counts -/

/-- `s.count(sub)` scanning, skipping over a completed (non-overlapping)
match. -/
def countSubAux (sub : List Char) : List Char → Nat → Nat
  | [], _ => 0
  | c :: t, skip =>
    if skip > 0 then countSubAux sub t (skip - 1)
    else if sub.isPrefixOf (c :: t) then 1 + countSubAux sub t (sub.length - 1)
    else countSubAux sub t 0

/-- `s.count(sub)`: non-overlapping occurrences (an empty needle counts
every gap). -/
def pyCount (s sub : String) : Nat :=
  match sub.data with
  | [] => s.data.length + 1
  | l => countSubAux l s.data 0

/-- The two counts printed by the `__main__` smoke test:
`html_all.count("<dt>")` and `html_bond.count("<dt>")`, `none` when
rendering raises. -/
def cliCounts (entries : List Entry) : Option (Nat × Nat) :=
  match render_bibliography entries none, render_bibliography entries (some "Bond") with
  | some html_all, some html_bond => some (pyCount html_all "<dt>", pyCount html_bond "<dt>")
  | _, _ => none


/-! ### Crossref resolution (the pass at the end of
`load_bibliography`, `bib2html.py` lines 75–90)

Parsing itself is done by the external `bibtexparser` library and is
out of scope; the pass below operates on the parsed entry list.  The
Python loop mutates the entry dicts in place while `entry_map` holds
references to them, so a parent is read in its *current* state, with
any fields it inherited earlier in the same pass. -/

/-- Body of the `for field, value in parent.items()` loop: skip
reserved fields, only fill in what the child is missing. -/
def inheritStep (c : Entry) (fv : String × String) : Entry :=
  if startsUnderscore fv.1 then c
  else if eget c fv.1 ≠ "" then c
  else eset c fv.1 fv.2

/-- `parent.items()` loop: copy every non-reserved field the child is
missing (absent or empty) from the parent. -/
def inheritFrom (child parent : Entry) : Entry :=
  parent.foldl inheritStep child

/-- `entry_map.get(xref_key)`: the dict comprehension keeps the last
entry for a key, and `_key` fields never change during the pass, so the
parent is the last entry of the current list whose `_key` is the
crossref key. -/
def findParent (entries : List Entry) (k : String) : Option Entry :=
  (entries.filter (fun e => eget e "_key" == k)).getLast?

/-- One iteration of the crossref loop, processing the entry at
position `i` of the current list. -/
def resolveStep (entries : List Entry) (i : Nat) : List Entry :=
  match entries[i]? with
  | none => entries
  | some e =>
    let xref := pyStrip (eget e "crossref")
    if xref = "" then entries
    else
      match findParent entries xref with
      | none => entries
      | some parent => entries.set i (inheritFrom e parent)

/-- The state of the entry list after the loop has processed the first
`i` positions. -/
def resolvePrefix (entries : List Entry) (i : Nat) : List Entry :=
  (List.range i).foldl resolveStep entries

/-- The crossref-resolution pass of `load_bibliography`: process every
position in order. -/
def resolveCrossrefs (entries : List Entry) : List Entry :=
  resolvePrefix entries entries.length


/-! ### Concrete entries used by the claim theorems below -/

def exB : Entry := [("_type", "inproceedings"), ("_key", "b"), ("crossref", "c")]

def exA : Entry :=
  [("_type", "inproceedings"), ("_key", "a"), ("crossref", "b"), ("title", "A Paper")]

def exC : Entry := [("_type", "proceedings"), ("_key", "c"), ("year", "2020")]

def exList : List Entry := [exB, exA, exC]

/-- The state of `exB` after its own step: it has inherited `year` from
`exC`. -/
def exBres : Entry :=
  [("_type", "inproceedings"), ("_key", "b"), ("crossref", "c"), ("year", "2020")]

/-- The journal-article entry of the claim. -/
def exArt : Entry :=
  [("_type", "article"), ("_key", "jair10"), ("journal", "JAIR"),
   ("volume", "10"), ("number", "2"), ("pages", "1-20")]

def exAuth : Entry :=
  [("_type", "misc"), ("_key", "w5"), ("author", "Bond, Francis"), ("title", "T")]

/-- The concrete collections of the C3 example and counterexample. -/
def exYears : List Entry :=
  [[("_key", "a"), ("year", "2019")], [("_key", "b"), ("year", "2021")],
   [("_key", "c")], [("_key", "d"), ("year", "2005")]]

def exNoYear : Entry := [("_key", "ny")]

def exInPress : Entry := [("_key", "ip"), ("year", "in press")]

/-- A character that can neither extend a whitespace run nor a hyphen
run (e.g. any digit): the substitution scan copies it unchanged. -/
def safeChar (c : Char) : Bool :=
  !isWs c && c != '-'

/-- An entry whose `year` is U+00B2 SUPERSCRIPT TWO: `"²".isdigit()` is
true, yet `int("²")` raises `ValueError`. -/
def exSuper : Entry := [("_type", "misc"), ("_key", "k"), ("year", "²")]

/-- A one-entry collection for the CLI smoke test; `Bond` matches its
author, so both the unfiltered and the filtered output render exactly
this one entry. -/
def exCli : Entry :=
  [("_type", "misc"), ("_key", "x1"), ("author", "Bond, Francis"),
   ("title", "T"), ("year", "2020")]

/-! ## Sanity checks: concrete evaluations of the embedded operations -/

example : pyStrip "  a b\t" = "a b" := by decide

example : eget [("a", "1"), ("b", "2")] "b" = "2" := by decide

example : eset [("a", "1"), ("b", "2")] "a" "3" = [("a", "3"), ("b", "2")] := by decide

example : eset [("a", "1")] "c" "3" = [("a", "1"), ("c", "3")] := by decide

example : containsSub "phd".data "xphdthesis".data = true := by decide

example : startsUnderscore "_key" = true := by decide

example : pySubDashes "100--110" = "100–110" := by decide

example : pySubDashes "100-110" = "100–110" := by decide

example : pySubDashes "100---110" = "100––110" := by decide

example : pySubDashes "a- -b" = "a––b" := by decide

example : pySubDashes " - " = "–" := by decide

example : pySubDashes "a  b" = "a  b" := by decide

example : pySplitAnd "x and  and y" = ["x", "and y"] := by decide

example : pySplitAnd "x  and  y and" = ["x", "y and"] := by decide

example : pySplitAnd " a and b " = [" a", "b "] := by decide

example : pySplitAnd "" = [""] := by decide

example : pySplitAnd "x and " = ["x", ""] := by decide

example : pySplitAnd " aand b" = [" aand b"] := by decide

example : pySplitAnd "A, X AND B, Y" = ["A, X", "B, Y"] := by decide

example : format_name "Bond, Francis" = "Francis Bond" := by decide

example : format_name "Francis Bond" = "Francis Bond" := by decide

example : format_name_list "Bond, Francis and Baldwin, Timothy" =
    "Francis Bond and Timothy Baldwin" := by decide

example : format_name_list "A, X and B, Y and C, Z" = "X A, Y B, and Z C" := by decide

example : author_matches "Bond, Francis" "bond" = true := by decide

example : pages_html [("pages", "1-20")] = "pp.&nbsp;1–20" := by decide

example : pages_html [] = "" := by decide

example : doi_link "10.5/x" = "DOI: <a href=\"https://doi.org/10.5/x\">10.5/x</a>" := by decide

example : doi_link "https://doi.org/10.5/x" =
    "DOI: <a href=\"https://doi.org/10.5/x\">10.5/x</a>" := by decide

example : venue_html [("_type", "article"), ("_key", "jair10"), ("journal", "JAIR"),
    ("volume", "10"), ("number", "2"), ("pages", "1-20")] =
    "<i>JAIR</i> <b>10</b>(2), pp.&nbsp;1–20" := by decide

example : pyIsdigit "2020" = true := by decide

example : pyIsdigit "²" = true := by decide

example : pyIntOpt "²" = none := by decide

example : pyIntOpt "2020" = some 2020 := by decide

example : keyD "undated" = 0 := by decide

example : sectionYears
    [[("_key", "a"), ("year", "2019")], [("_key", "b"), ("year", "2021")],
     [("_key", "c")], [("_key", "d"), ("year", "2005")]] none =
    some ["2021", "2019", "2005", "undated"] := by decide

example : sectionYears [[("_key", "a")], [("_key", "b"), ("year", "in press")]] none =
    some ["undated", "in press"] := by decide

example : pyCount "aaa" "aa" = 1 := by decide

example : pyCount "xx<dt>y<dt>" "<dt>" = 2 := by decide

example : resolveCrossrefs
    [[("_type", "inproceedings"), ("_key", "child"), ("crossref", "parent"),
      ("title", "A Paper")],
     [("_type", "proceedings"), ("_key", "parent"), ("booktitle", "Proc. ACL"),
      ("year", "2020")]] =
    [[("_type", "inproceedings"), ("_key", "child"), ("crossref", "parent"),
      ("title", "A Paper"), ("booktitle", "Proc. ACL"), ("year", "2020")],
     [("_type", "proceedings"), ("_key", "parent"), ("booktitle", "Proc. ACL"),
      ("year", "2020")]] := by decide

/-! ## Lemmas about `eget` / `eset` -/

theorem eget_cons (p : String × String) (e : Entry) (k : String) :
    eget (p :: e) k = if p.1 = k then p.2 else eget e k := by
  simp [eget]

theorem eget_eset_self (e : Entry) (k v : String) : eget (eset e k v) k = v := by
  induction e with
  | nil => simp [eset, eget]
  | cons p e ih =>
    simp only [eset]
    by_cases hp : (p.1 == k) = true
    · rw [if_pos hp, eget_cons, if_pos (eq_of_beq hp)]
    · rw [if_neg hp, eget_cons, if_neg (fun h => hp (beq_iff_eq.mpr h))]
      exact ih

theorem eget_eset_ne (e : Entry) (k v k' : String) (hk : k' ≠ k) :
    eget (eset e k v) k' = eget e k' := by
  induction e with
  | nil =>
    simp only [eset]
    rw [eget_cons, if_neg (fun h : k = k' => hk h.symm)]
  | cons p e ih =>
    simp only [eset]
    by_cases hp : (p.1 == k) = true
    · rw [if_pos hp, eget_cons, eget_cons]
      have h1 : ¬ p.1 = k' := by
        rw [eq_of_beq hp]
        exact fun h => hk h.symm
      rw [if_neg h1, if_neg h1]
    · rw [if_neg hp, eget_cons, eget_cons]
      by_cases h2 : p.1 = k'
      · rw [if_pos h2, if_pos h2]
      · rw [if_neg h2, if_neg h2]
        exact ih

/-! ## Lemmas about `inheritFrom` -/

theorem inheritFrom_cons (c : Entry) (fv : String × String) (p : Entry) :
    inheritFrom c (fv :: p) = inheritFrom (inheritStep c fv) p := rfl

/-- A step on a pair with a different key does not change field `f`. -/
theorem eget_inheritStep_ne (c : Entry) (fv : String × String) (f : String)
    (h : fv.1 ≠ f) : eget (inheritStep c fv) f = eget c f := by
  unfold inheritStep
  split_ifs with h1 h2
  · rfl
  · rfl
  · exact eget_eset_ne c fv.1 fv.2 f (Ne.symm h)

/-- A step never changes a reserved field nor a field the child already
has nonempty. -/
theorem eget_inheritStep_keep (c : Entry) (fv : String × String) (f : String)
    (h : startsUnderscore f = true ∨ eget c f ≠ "") :
    eget (inheritStep c fv) f = eget c f := by
  by_cases hk : fv.1 = f
  · unfold inheritStep
    split_ifs with h1 h2
    · rfl
    · rfl
    · exfalso
      rcases h with h | h
      · exact h1 (hk ▸ h)
      · exact h2 (hk ▸ h)
  · exact eget_inheritStep_ne c fv f hk

/-- Reserved fields and fields already nonempty on the child survive
the whole parent loop unchanged. -/
theorem eget_inheritFrom_keep (p : Entry) (c : Entry) (f : String)
    (h : startsUnderscore f = true ∨ eget c f ≠ "") :
    eget (inheritFrom c p) f = eget c f := by
  induction p generalizing c with
  | nil => rfl
  | cons fv p ih =>
    rw [inheritFrom_cons]
    have hstep := eget_inheritStep_keep c fv f h
    rw [ih (inheritStep c fv) (by rw [hstep]; exact h), hstep]

/-- A field whose key does not occur in the parent survives the loop
unchanged. -/
theorem eget_inheritFrom_notMem (p : Entry) (c : Entry) (f : String)
    (h : ∀ fv ∈ p, fv.1 ≠ f) :
    eget (inheritFrom c p) f = eget c f := by
  induction p generalizing c with
  | nil => rfl
  | cons fv p ih =>
    rw [inheritFrom_cons]
    rw [ih (inheritStep c fv) (fun q hq => h q (List.mem_cons_of_mem fv hq))]
    exact eget_inheritStep_ne c fv f (h fv (List.mem_cons_self fv p))

/-- A non-reserved field absent or empty on the child is copied from
the parent (whose field keys are distinct, as in a Python dict). -/
theorem eget_inheritFrom_fill (p : Entry) (c : Entry) (f : String)
    (hu : startsUnderscore f = false) (hc : eget c f = "")
    (hnd : (p.map Prod.fst).Nodup) :
    eget (inheritFrom c p) f = eget p f := by
  induction p generalizing c with
  | nil => simpa [eget] using hc
  | cons fv p ih =>
    rw [inheritFrom_cons, eget_cons]
    by_cases hk : fv.1 = f
    · rw [if_pos hk]
      have hstep : inheritStep c fv = eset c fv.1 fv.2 := by
        unfold inheritStep
        rw [if_neg (by rw [hk, hu]; exact Bool.false_ne_true), if_neg (by rw [hk]; exact fun h => h hc)]
      rw [hstep]
      have hrest : ∀ q ∈ p, q.1 ≠ f := by
        intro q hq hf
        simp only [List.map_cons, List.nodup_cons] at hnd
        have hqf : fv.1 = q.1 := hk.trans hf.symm
        exact hnd.1 (hqf ▸ List.mem_map_of_mem Prod.fst hq)
      rw [eget_inheritFrom_notMem p _ f hrest, ← hk]
      exact eget_eset_self c fv.1 fv.2
    · rw [if_neg hk]
      have hstep := eget_inheritStep_ne c fv f hk
      rw [ih (inheritStep c fv) (by rw [hstep]; exact hc)
        (by simp only [List.map_cons, List.nodup_cons] at hnd; exact hnd.2)]

/-! ## Structure of the crossref pass -/

theorem length_resolveStep (l : List Entry) (i : Nat) :
    (resolveStep l i).length = l.length := by
  unfold resolveStep
  cases h : l[i]? with
  | none => rfl
  | some e =>
    by_cases hx : pyStrip (eget e "crossref") = ""
    · simp [hx]
    · simp only [if_neg hx]
      cases hp : findParent l (pyStrip (eget e "crossref")) with
      | none => rfl
      | some parent => exact List.length_set l i _

/-- A step at position `i` leaves every other position unchanged. -/
theorem getElem?_resolveStep_ne (l : List Entry) (i j : Nat) (h : i ≠ j) :
    (resolveStep l i)[j]? = l[j]? := by
  unfold resolveStep
  cases hh : l[i]? with
  | none => rfl
  | some e =>
    by_cases hx : pyStrip (eget e "crossref") = ""
    · simp [hx]
    · simp only [if_neg hx]
      cases hp : findParent l (pyStrip (eget e "crossref")) with
      | none => rfl
      | some parent => simp [List.getElem?_set, h]

theorem length_resolvePrefix (entries : List Entry) (i : Nat) :
    (resolvePrefix entries i).length = entries.length := by
  unfold resolvePrefix
  generalize List.range i = idxs
  induction idxs generalizing entries with
  | nil => rfl
  | cons j idxs ih => rw [List.foldl_cons]; rw [ih, length_resolveStep]

/-- Before step `i` runs, position `i` still holds the loaded entry. -/
theorem getElem?_resolvePrefix_ge (entries : List Entry) (i j : Nat) (h : i ≤ j) :
    (resolvePrefix entries i)[j]? = entries[j]? := by
  unfold resolvePrefix
  have : ∀ k ∈ List.range i, k ≠ j := by
    intro k hk
    have := List.mem_range.mp hk
    omega
  generalize hr : List.range i = idxs at this
  clear hr h
  induction idxs generalizing entries with
  | nil => rfl
  | cons m idxs ih =>
    rw [List.foldl_cons]
    rw [ih (resolveStep entries m) (fun k hk => this k (List.mem_cons_of_mem m hk))]
    exact getElem?_resolveStep_ne entries m j (this m (List.mem_cons_self m idxs))

theorem resolvePrefix_succ (entries : List Entry) (i : Nat) :
    resolvePrefix entries (i + 1) = resolveStep (resolvePrefix entries i) i := by
  unfold resolvePrefix
  rw [List.range_succ, List.foldl_append, List.foldl_cons, List.foldl_nil]

/-- After step `i` has run, later steps never touch position `i`
again. -/
theorem getElem?_resolvePrefix_gt (entries : List Entry) (i m : Nat) (h : i < m) :
    (resolvePrefix entries m)[i]? = (resolvePrefix entries (i + 1))[i]? := by
  induction m with
  | zero => omega
  | succ m ih =>
    by_cases hm : i < m
    · rw [resolvePrefix_succ, getElem?_resolveStep_ne _ m i (by omega), ih hm]
    · have : m = i := by omega
      rw [this]

/-- Position `i` of the fully resolved list is the result of step `i`
applied to the state just before it. -/
theorem getElem?_resolveCrossrefs (entries : List Entry) (i : Nat)
    (h : i < entries.length) :
    (resolveCrossrefs entries)[i]? = (resolveStep (resolvePrefix entries i) i)[i]? := by
  unfold resolveCrossrefs
  rw [← resolvePrefix_succ]
  by_cases hm : i + 1 = entries.length
  · rw [hm]
  · exact getElem?_resolvePrefix_gt entries i entries.length (by omega)

/-- What step `i` does at position `i`: nothing without a (resolvable,
nonempty) crossref, otherwise it replaces the entry by its
parent-inherited version. -/
theorem resolveStep_at (l : List Entry) (i : Nat) (e : Entry) (h : l[i]? = some e) :
    (resolveStep l i)[i]? =
      (if _hx : pyStrip (eget e "crossref") = "" then some e
       else
         match findParent l (pyStrip (eget e "crossref")) with
         | none => some e
         | some parent => some (inheritFrom e parent)) := by
  have hlen : i < l.length := (List.getElem?_eq_some.mp h).1
  unfold resolveStep
  rw [h]
  by_cases hx : pyStrip (eget e "crossref") = ""
  · simp [hx, h]
  · simp only [if_neg hx, dif_neg hx]
    cases hp : findParent l (pyStrip (eget e "crossref")) with
    | none => exact h
    | some parent => simp [List.getElem?_set, hlen]

/-! ## Claims C1 and C10: crossref resolution

A three-entry collection whose first entry `exB` crossrefs the third
(`exC`) and whose second entry `exA` crossrefs the first: because the
pass mutates entries in place and reads parents through the shared
index, `exB` first inherits `year` from `exC`, and `exA` then inherits
that `year` from the already-updated `exB` — a depth-2 chain followed
transitively. -/

/-- C1 (counterexample): crossref inheritance is *not* one level only.
Entry `a` crossrefs `b`, `b` crossrefs `c`, and `b` as loaded has no
`year`; yet after the pass, `a` carries the `year` that only `c`
provided — the depth-2 chain was followed transitively, because `b` was
processed (and mutated in place) before `a`. -/
theorem crossref_transitive_cex :
    eget exA "crossref" = "b" ∧ eget exB "crossref" = "c" ∧
    eget exB "year" = "" ∧ eget exA "year" = "" ∧ eget exC "year" = "2020" ∧
    eget ((resolveCrossrefs exList).getD 1 []) "year" = "2020" := by
  decide

/-- C1 (amended): for an entry `e` at position `i` whose trimmed
crossref key resolves — in the list state `resolvePrefix entries i`
current when the loop reaches it — to a parent `p` (a dict, so with
distinct field keys), the pass replaces `e` by `inheritFrom e p`: every
non-reserved field absent or empty on `e` is copied from `p` as it is
*at that moment* (so values inherited by `p` earlier in the pass flow
on transitively), and every field already nonempty on `e` is
preserved. -/
theorem crossref_inherits (entries : List Entry) (i : Nat) (e p : Entry)
    (he : entries[i]? = some e)
    (hx : pyStrip (eget e "crossref") ≠ "")
    (hp : findParent (resolvePrefix entries i) (pyStrip (eget e "crossref")) = some p)
    (hnd : (p.map Prod.fst).Nodup) :
    (resolveCrossrefs entries)[i]? = some (inheritFrom e p) ∧
      (∀ f, startsUnderscore f = false → eget e f = "" →
        eget (inheritFrom e p) f = eget p f) ∧
      (∀ f, eget e f ≠ "" → eget (inheritFrom e p) f = eget e f) := by
  have hlen := (List.getElem?_eq_some.mp he).1
  have hpre : (resolvePrefix entries i)[i]? = some e := by
    rw [getElem?_resolvePrefix_ge entries i i (le_refl i)]
    exact he
  refine ⟨?_, ?_, ?_⟩
  · rw [getElem?_resolveCrossrefs entries i hlen, resolveStep_at _ i e hpre, dif_neg hx, hp]
  · exact fun f hf hc => eget_inheritFrom_fill p e f hf hc hnd
  · exact fun f hf => eget_inheritFrom_keep p e f (Or.inr hf)

/-- C1 (witness): on the concrete three-entry collection, entry `a` is
replaced by `inheritFrom exA exBres` — inheriting the `year` that its
parent `b` holds at processing time. -/
theorem crossref_inherits_witness :
    (resolveCrossrefs exList)[1]? = some (inheritFrom exA exBres) ∧
      eget (inheritFrom exA exBres) "year" = eget exBres "year" := by
  have h := crossref_inherits exList 1 exA exBres (by decide) (by decide) (by decide) (by decide)
  exact ⟨h.1, h.2.1 "year" (by decide) (by decide)⟩

/-- C10: the crossref pass never changes a reserved (underscore) field
— in particular `_type` and `_key` — and never overwrites a field that
was already nonempty on the entry. -/
theorem crossref_preserves_reserved (entries : List Entry) (i : Nat) (e : Entry)
    (he : entries[i]? = some e) :
    ∃ e', (resolveCrossrefs entries)[i]? = some e' ∧
      (∀ f, startsUnderscore f = true → eget e' f = eget e f) ∧
      (∀ f, eget e f ≠ "" → eget e' f = eget e f) := by
  have hlen := (List.getElem?_eq_some.mp he).1
  have hpre : (resolvePrefix entries i)[i]? = some e := by
    rw [getElem?_resolvePrefix_ge entries i i (le_refl i)]
    exact he
  rw [getElem?_resolveCrossrefs entries i hlen, resolveStep_at _ i e hpre]
  by_cases hx : pyStrip (eget e "crossref") = ""
  · exact ⟨e, by rw [dif_pos hx], fun f _ => rfl, fun f _ => rfl⟩
  · rw [dif_neg hx]
    cases hp : findParent (resolvePrefix entries i) (pyStrip (eget e "crossref")) with
    | none => exact ⟨e, rfl, fun f _ => rfl, fun f _ => rfl⟩
    | some parent =>
      exact ⟨inheritFrom e parent, rfl,
        fun f hf => eget_inheritFrom_keep parent e f (Or.inl hf),
        fun f hf => eget_inheritFrom_keep parent e f (Or.inr hf)⟩

/-- C10 (witness): instantiated on the concrete collection at
position 0. -/
theorem crossref_preserves_reserved_witness :
    ∃ e', (resolveCrossrefs exList)[0]? = some e' ∧
      (∀ f, startsUnderscore f = true → eget e' f = eget exB f) ∧
      (∀ f, eget exB f ≠ "" → eget e' f = eget exB f) :=
  crossref_preserves_reserved exList 0 exB (by decide)

/-! ## Claim C2: journal-article venue -/

/-- C2 (counterexample): the venue is *not* the claimed string with a
U+00A0 no-break-space character after `pp.` — the code emits the
six-character HTML entity `&nbsp;` instead. -/
theorem venue_article_nbsp_cex :
    venue_html exArt ≠ "<i>JAIR</i> <b>10</b>(2), pp.\u00A01\u201320" := by
  decide

/-- C2 (amended): the venue renderer returns exactly
`<i>JAIR</i> <b>10</b>(2), pp.&nbsp;1–20`: the no-break space is the
HTML entity `&nbsp;`, the page separator the en-dash character
U+2013. -/
theorem venue_article_ok :
    venue_html exArt = "<i>JAIR</i> <b>10</b>(2), pp.&nbsp;1–20" := by
  decide

/-! ## Claim C8: determinism of `render_bibliography` -/

/-- C8: `render_bibliography` is a pure function of the entry list and
the author filter — identical inputs give byte-identical output, with
no dependence on external state. -/
theorem render_bibliography_deterministic (e1 e2 : List Entry) (f1 f2 : Option String)
    (h1 : e1 = e2) (h2 : f1 = f2) :
    render_bibliography e1 f1 = render_bibliography e2 f2 := by
  rw [h1, h2]

/-- C8 (witness): two renders of the same concrete collection
coincide. -/
theorem render_bibliography_deterministic_witness :
    render_bibliography exList none = render_bibliography exList none :=
  render_bibliography_deterministic exList exList none none rfl rfl

/-! ## Claim C5: author-filter monotonicity -/

theorem containsSub_nil (l : List Char) : containsSub [] l = true := by
  cases l <;> simp [containsSub, List.isPrefixOf]

theorem author_matches_empty (s : String) : author_matches s "" = true := by
  unfold author_matches pyLower
  exact containsSub_nil _

/-- C5: every entry retained by the filtering step of
`render_bibliography` is one of the entries rendered without a filter,
and its author-or-editor field matches the filter substring
case-insensitively. -/
theorem author_filter_subset (entries : List Entry) (f : String) (e : Entry)
    (he : e ∈ visibleEntries entries (some f)) :
    e ∈ visibleEntries entries none ∧
      author_matches (pyGet e ["author", "editor"]) f = true := by
  have hvis : visibleEntries entries none = entries := rfl
  rw [hvis]
  by_cases hf : f = ""
  · subst hf
    have h0 : visibleEntries entries (some "") = entries := by
      simp [visibleEntries]
    rw [h0] at he
    exact ⟨he, author_matches_empty _⟩
  · have h0 : visibleEntries entries (some f) =
        entries.filter (fun e => author_matches (pyGet e ["author", "editor"]) f) := by
      simp [visibleEntries, hf]
    rw [h0] at he
    exact List.mem_filter.mp he

/-- C5 (witness): a concrete entry retained by the case-insensitive
filter `bond`. -/
theorem author_filter_subset_witness :
    exAuth ∈ visibleEntries [exAuth] none ∧
      author_matches (pyGet exAuth ["author", "editor"]) "bond" = true :=
  author_filter_subset [exAuth] "bond" exAuth (by decide)

/-! ## Claim C4: name-list formatting -/

/-- C4: `_format_name_list` splits on the (case-insensitive) `and`
separator, converts each `Last, First` name to `First Last`
(`fmtNames`), and joins with prose-list rules — empty list → `""`, one
name → itself, two → `A and B`, three or more → Oxford-comma joining —
and in particular maps the two example strings as claimed. -/
theorem format_name_list_spec :
    (∀ s, fmtNames s = [] → format_name_list s = "") ∧
    (∀ s a, fmtNames s = [a] → format_name_list s = a) ∧
    (∀ s a b, fmtNames s = [a, b] → format_name_list s = a ++ " and " ++ b) ∧
    (∀ s l, fmtNames s = l → 3 ≤ l.length →
      format_name_list s = joinSep ", " l.dropLast ++ ", and " ++ l.getLastD "") ∧
    format_name_list "Bond, Francis and Baldwin, Timothy" =
      "Francis Bond and Timothy Baldwin" ∧
    format_name_list "A, X and B, Y and C, Z" = "X A, Y B, and Z C" := by
  refine ⟨?_, ?_, ?_, ?_, by decide, by decide⟩
  · intro s h
    unfold format_name_list
    rw [h]
  · intro s a h
    unfold format_name_list
    rw [h]
  · intro s a b h
    unfold format_name_list
    rw [h]
  · intro s l h hlen
    unfold format_name_list
    rw [h]
    rcases l with _ | ⟨a, _ | ⟨b, _ | ⟨c, rest⟩⟩⟩
    · simp at hlen
    · simp at hlen
    · simp at hlen
    · rfl

/-! ## Claim C3: year-section ordering -/

theorem insertDesc_perm (key : String → Int) (x : String) (l : List String) :
    (insertDesc key x l).Perm (x :: l) := by
  induction l with
  | nil => exact List.Perm.refl [x]
  | cons y ys ih =>
    unfold insertDesc
    by_cases h : key x < key y
    · rw [if_pos h]
      exact (List.Perm.cons y ih).trans (List.Perm.swap x y ys)
    · rw [if_neg h]

theorem sortDesc_perm (key : String → Int) (l : List String) :
    (sortDesc key l).Perm l := by
  induction l with
  | nil => exact List.Perm.refl []
  | cons x xs ih =>
    unfold sortDesc
    rw [List.foldr_cons]
    exact (insertDesc_perm key x _).trans (List.Perm.cons x ih)

theorem pairwise_insertDesc (key : String → Int) (x : String) (l : List String)
    (h : List.Pairwise (fun a b => key b ≤ key a) l) :
    List.Pairwise (fun a b => key b ≤ key a) (insertDesc key x l) := by
  induction l with
  | nil => simp [insertDesc]
  | cons y ys ih =>
    rcases List.pairwise_cons.mp h with ⟨hy, hys⟩
    unfold insertDesc
    by_cases hlt : key x < key y
    · rw [if_pos hlt]
      refine List.pairwise_cons.mpr ⟨?_, ih hys⟩
      intro z hz
      rw [(insertDesc_perm key x ys).mem_iff] at hz
      rcases List.mem_cons.mp hz with rfl | hz
      · exact le_of_lt hlt
      · exact hy z hz
    · rw [if_neg hlt]
      have hxy : key y ≤ key x := le_of_not_lt hlt
      refine List.pairwise_cons.mpr ⟨?_, h⟩
      intro z hz
      rcases List.mem_cons.mp hz with rfl | hz
      · exact hxy
      · exact le_trans (hy z hz) hxy

theorem pairwise_sortDesc (key : String → Int) (l : List String) :
    List.Pairwise (fun a b => key b ≤ key a) (sortDesc key l) := by
  induction l with
  | nil => exact List.Pairwise.nil
  | cons x xs ih =>
    unfold sortDesc
    rw [List.foldr_cons]
    exact pairwise_insertDesc key x _ ih

theorem nodup_firstOccurrences (l : List String) : (firstOccurrences l).Nodup := by
  unfold firstOccurrences
  suffices h : ∀ acc : List String, acc.Nodup →
      (l.foldl (fun acc y => if y ∈ acc then acc else acc ++ [y]) acc).Nodup from
    h [] List.nodup_nil
  induction l with
  | nil => exact fun acc h => h
  | cons x xs ih =>
    intro acc hacc
    rw [List.foldl_cons]
    by_cases hx : x ∈ acc
    · rw [if_pos hx]
      exact ih acc hacc
    · rw [if_neg hx]
      refine ih (acc ++ [x]) (List.Nodup.append hacc (List.nodup_singleton x) ?_)
      intro a ha hb
      rw [List.mem_singleton] at hb
      exact hx (hb ▸ ha)

/-- In a descending-sorted duplicate-free list, an element whose key is
strictly below every other element's key is the last element. -/
theorem getLast?_of_strict_min (key : String → Int) (u : String) :
    ∀ l : List String, List.Pairwise (fun a b => key b ≤ key a) l → l.Nodup →
      u ∈ l → (∀ y ∈ l, y ≠ u → key u < key y) → l.getLast? = some u := by
  intro l
  induction l with
  | nil =>
    intro _ _ hm
    exact absurd hm (List.not_mem_nil u)
  | cons a l ih =>
    intro hp hn hm hpos
    cases l with
    | nil =>
      rcases List.mem_singleton.mp hm with rfl
      rfl
    | cons b l' =>
      rcases List.pairwise_cons.mp hp with ⟨ha, hp'⟩
      rcases List.nodup_cons.mp hn with ⟨han, hn'⟩
      by_cases hau : a = u
      · exfalso
        subst hau
        have hbne : b ≠ a := by
          intro hba
          exact han (hba ▸ List.mem_cons_self b l')
        have hlt : key a < key b :=
          hpos b (List.mem_cons_of_mem a (List.mem_cons_self b l')) hbne
        have hle : key b ≤ key a := ha b (List.mem_cons_self b l')
        omega
      · have hm' : u ∈ b :: l' := by
          rcases List.mem_cons.mp hm with rfl | hm'
          · exact absurd rfl hau
          · exact hm'
        rw [List.getLast?_cons_cons]
        exact ih hp' hn' hm'
          (fun y hy hne => hpos y (List.mem_cons_of_mem a hy) hne)

/-- C3 (amended): the year sections of `render_bibliography` are
ordered by descending numeric key (`int(y)` for digit-string years, `0`
for every other year including the `undated` bucket), stably; hence
whenever every other year key has a strictly positive numeric key, the
`undated` bucket comes last — but it ties at key `0` with a year `"0"`
or a non-numeric year text, and such ties keep first-appearance
order. -/
theorem sectionYears_sorted (entries : List Entry) (af : Option String)
    (ys : List String) (h : sectionYears entries af = some ys) :
    List.Pairwise (fun a b => keyD b ≤ keyD a) ys ∧
      ("undated" ∈ ys → (∀ y ∈ ys, y ≠ "undated" → 0 < keyD y) →
        ys.getLast? = some "undated") := by
  unfold sectionYears at h
  by_cases hall : ((yearKeysOf entries af).all fun y => (yearKeyOpt y).isSome) = true
  · rw [if_pos hall] at h
    have hys : ys = sortDesc keyD (yearKeysOf entries af) := (Option.some.inj h).symm
    subst hys
    refine ⟨pairwise_sortDesc keyD _, ?_⟩
    intro hm hpos
    refine getLast?_of_strict_min keyD "undated" _ (pairwise_sortDesc keyD _)
      ((sortDesc_perm keyD _).symm.nodup (nodup_firstOccurrences _)) hm ?_
    intro y hy hne
    have h0 : keyD "undated" = 0 := by decide
    rw [h0]
    exact hpos y hy hne
  · rw [if_neg hall] at h
    exact absurd h (by simp)

/-- C3 (counterexample): the `undated` bucket does *not* sort last
regardless of other year texts: with an undated entry first and an
entry whose year is the non-numeric text `in press` second, both get
sort key `0` and the stable sort keeps first-appearance order, so the
`undated` section comes first, not last. -/
theorem undated_not_last_cex :
    sectionYears [exNoYear, exInPress] none = some ["undated", "in press"] ∧
      (["undated", "in press"] : List String).getLast? = some "in press" := by
  decide

/-- C3 (witness): for years `{2019, 2021, undated, 2005}` the section
order is `2021, 2019, 2005, undated` and the undated bucket is last. -/
theorem sectionYears_sorted_witness :
    sectionYears exYears none = some ["2021", "2019", "2005", "undated"] ∧
      (["2021", "2019", "2005", "undated"] : List String).getLast? = some "undated" := by
  have h := sectionYears_sorted exYears none ["2021", "2019", "2005", "undated"] (by decide)
  exact ⟨by decide, h.2 (by decide) (by decide)⟩

/-- C4 (witness): the three-name example, through the Oxford-comma
case of the specification. -/
theorem format_name_list_spec_witness :
    fmtNames "A, X and B, Y and C, Z" = ["X A", "Y B", "Z C"] ∧
      format_name_list "A, X and B, Y and C, Z" =
        joinSep ", " (["X A", "Y B", "Z C"] : List String).dropLast ++ ", and " ++
          (["X A", "Y B", "Z C"] : List String).getLastD "" :=
  ⟨by decide, format_name_list_spec.2.2.2.1 _ _ (by decide) (by decide)⟩

/-! ## Claim C6: page-range normalisation -/

theorem ws_ne_dash (c : Char) (h : isWs c = true) : (c == '-') = false := by
  simp only [isWs, Bool.or_eq_true, beq_iff_eq] at h
  rcases h with ((((h | h) | h) | h) | h) | h <;> subst h <;> decide

/-- The scan copies a run of safe characters unchanged. -/
theorem subDashGo_copies_safe (pre : List Char) (rest acc : List Char)
    (h : ∀ c ∈ pre, safeChar c = true) :
    subDashGo (pre ++ rest) .norm acc = subDashGo rest .norm (pre.reverse ++ acc) := by
  induction pre generalizing acc with
  | nil => simp
  | cons c pre ih =>
    have hc := h c (List.mem_cons_self c pre)
    simp only [safeChar, Bool.and_eq_true, Bool.not_eq_true', bne_iff_ne, ne_eq] at hc
    rw [List.cons_append]
    show subDashGo (c :: (pre ++ rest)) .norm acc = _
    simp only [subDashGo]
    rw [if_neg (by rw [hc.1]; exact Bool.false_ne_true),
      if_neg (by rw [beq_eq_false_iff_ne.mpr hc.2]; exact Bool.false_ne_true)]
    rw [ih _ (fun d hd => h d (List.mem_cons_of_mem c hd))]
    simp

/-- The scan buffers a whitespace run while no hyphen has appeared. -/
theorem subDashGo_w_ws (ws1 : List Char) (cs buf acc : List Char)
    (h : ∀ c ∈ ws1, isWs c = true) :
    subDashGo (ws1 ++ cs) (.w buf) acc = subDashGo cs (.w (ws1.reverse ++ buf)) acc := by
  induction ws1 generalizing buf with
  | nil => simp
  | cons c ws ih =>
    have hc := h c (List.mem_cons_self c ws)
    rw [List.cons_append]
    show subDashGo (c :: (ws ++ cs)) (.w buf) acc = _
    simp only [subDashGo]
    rw [if_pos hc, ih _ (fun d hd => h d (List.mem_cons_of_mem c hd))]
    simp

/-- The scan absorbs the trailing whitespace of a completed match. -/
theorem subDashGo_trail_ws (ws2 : List Char) (cs acc : List Char)
    (h : ∀ c ∈ ws2, isWs c = true) :
    subDashGo (ws2 ++ cs) .trail acc = subDashGo cs .trail acc := by
  induction ws2 with
  | nil => simp
  | cons c ws ih =>
    have hc := h c (List.mem_cons_self c ws)
    rw [List.cons_append]
    show subDashGo (c :: (ws ++ cs)) .trail acc = _
    simp only [subDashGo]
    rw [if_pos hc]
    exact ih (fun d hd => h d (List.mem_cons_of_mem c hd))

/-- After the first hyphen: an optional second hyphen and trailing
whitespace complete the match, which is emitted as one en-dash before
the following safe character. -/
theorem subDashGo_h1_finish (htail w2 : List Char) (d : Char) (ds acc : List Char)
    (hh : htail = [] ∨ htail = ['-']) (hw : ∀ c ∈ w2, isWs c = true)
    (hd : safeChar d = true) :
    subDashGo (htail ++ w2 ++ d :: ds) .h1 acc = subDashGo ds .norm (d :: '–' :: acc) := by
  simp only [safeChar, Bool.and_eq_true, Bool.not_eq_true', bne_iff_ne, ne_eq] at hd
  have hdno : (d == '-') = false := beq_eq_false_iff_ne.mpr hd.2
  have step2 : subDashGo (w2 ++ d :: ds) .h2 acc = subDashGo ds .norm (d :: '–' :: acc) := by
    cases w2 with
    | nil =>
      show subDashGo (d :: ds) .h2 acc = _
      simp only [subDashGo]
      rw [if_neg (by rw [hd.1]; exact Bool.false_ne_true), if_neg (by rw [hdno]; exact Bool.false_ne_true)]
    | cons e w2' =>
      have he := hw e (List.mem_cons_self e w2')
      rw [List.cons_append]
      show subDashGo (e :: (w2' ++ d :: ds)) .h2 acc = _
      simp only [subDashGo]
      rw [if_pos he, subDashGo_trail_ws w2' _ _ (fun c hc => hw c (List.mem_cons_of_mem e hc))]
      show subDashGo (d :: ds) .trail acc = _
      simp only [subDashGo]
      rw [if_neg (by rw [hd.1]; exact Bool.false_ne_true), if_neg (by rw [hdno]; exact Bool.false_ne_true)]
  have step1 : subDashGo (w2 ++ d :: ds) .h1 acc = subDashGo ds .norm (d :: '–' :: acc) := by
    cases w2 with
    | nil =>
      show subDashGo (d :: ds) .h1 acc = _
      simp only [subDashGo]
      rw [if_neg (by rw [hdno]; exact Bool.false_ne_true), if_neg (by rw [hd.1]; exact Bool.false_ne_true)]
    | cons e w2' =>
      have he := hw e (List.mem_cons_self e w2')
      rw [List.cons_append]
      show subDashGo (e :: (w2' ++ d :: ds)) .h1 acc = _
      simp only [subDashGo]
      rw [if_neg (by rw [ws_ne_dash e he]; exact Bool.false_ne_true), if_pos he,
        subDashGo_trail_ws w2' _ _ (fun c hc => hw c (List.mem_cons_of_mem e hc))]
      show subDashGo (d :: ds) .trail acc = _
      simp only [subDashGo]
      rw [if_neg (by rw [hd.1]; exact Bool.false_ne_true), if_neg (by rw [hdno]; exact Bool.false_ne_true)]
  rcases hh with rfl | rfl
  · rw [List.nil_append]
    exact step1
  · rw [List.cons_append, List.nil_append]
    show subDashGo ('-' :: (w2 ++ d :: ds)) .h1 acc = _
    simp only [subDashGo]
    rw [if_pos (by decide)]
    exact step2

/-- Dropping whitespace from the ends does nothing when both ends are
not whitespace. -/
theorem pyStripL_eq_self (l : List Char)
    (hhead : ∀ c, l.head? = some c → isWs c = false)
    (hlast : ∀ c, l.getLast? = some c → isWs c = false) :
    pyStripL l = l := by
  unfold pyStripL
  have h1 : l.dropWhile isWs = l := by
    cases l with
    | nil => rfl
    | cons c t =>
      rw [List.dropWhile_cons, if_neg (by rw [hhead c rfl]; exact Bool.false_ne_true)]
  rw [h1]
  have h2 : l.reverse.dropWhile isWs = l.reverse := by
    cases hr : l.reverse with
    | nil => rfl
    | cons c t =>
      rw [List.dropWhile_cons]
      have : l.getLast? = some c := by
        rw [List.getLast?_eq_head?_reverse, hr]
        rfl
      rw [if_neg (by rw [hlast c this]; exact Bool.false_ne_true)]
  rw [h2, List.reverse_reverse]

/-- C6: for every pages value consisting of two nonempty runs of
characters that are neither whitespace nor hyphens (in particular page
numbers), separated by one or two hyphens with optional surrounding
whitespace, the rendered pages fragment is `pp.&nbsp;` followed by the
two runs joined by a single en-dash — so `100--110` and `100-110`
render identically. -/
theorem pages_range_endash (d1 d2 w1 w2 h : List Char)
    (hd1 : d1 ≠ []) (hd2 : d2 ≠ [])
    (hs1 : ∀ c ∈ d1, safeChar c = true) (hs2 : ∀ c ∈ d2, safeChar c = true)
    (hw1 : ∀ c ∈ w1, isWs c = true) (hw2 : ∀ c ∈ w2, isWs c = true)
    (hh : h = ['-'] ∨ h = ['-', '-']) :
    pages_html [("pages", String.mk (d1 ++ w1 ++ h ++ w2 ++ d2))] =
      "pp.&nbsp;" ++ String.mk (d1 ++ '–' :: d2) := by
  obtain ⟨a, d1', rfl⟩ : ∃ a d1', d1 = a :: d1' := by
    cases d1 with
    | nil => exact absurd rfl hd1
    | cons a d1' => exact ⟨a, d1', rfl⟩
  obtain ⟨b, d2', rfl⟩ : ∃ b d2', d2 = b :: d2' := by
    cases d2 with
    | nil => exact absurd rfl hd2
    | cons b d2' => exact ⟨b, d2', rfl⟩
  set L : List Char := (a :: d1') ++ w1 ++ h ++ w2 ++ b :: d2' with hL
  have hsafe_a : safeChar a = true := hs1 a (List.mem_cons_self a d1')
  have hsafe_b : safeChar b = true := hs2 b (List.mem_cons_self b d2')
  have hnotWs : ∀ c : Char, safeChar c = true → isWs c = false := by
    intro c hc
    simp only [safeChar, Bool.and_eq_true, Bool.not_eq_true'] at hc
    exact hc.1
  -- the raw value survives `_get`'s strip
  have hstrip : pyStripL L = L := by
    refine pyStripL_eq_self L ?_ ?_
    · intro c hc
      have : c = a := by
        rw [hL] at hc
        simp only [List.cons_append, List.head?_cons, Option.some.injEq] at hc
        exact hc.symm
      rw [this]
      exact hnotWs a hsafe_a
    · intro c hc
      have hlast : L.getLast? = (b :: d2').getLast? := by
        rw [hL]
        simp only [List.append_assoc, List.getLast?_append]
        cases hgl : (b :: d2').getLast? with
        | none => simp [List.getLast?] at hgl
        | some x => simp
      rw [hlast] at hc
      -- the last of `b :: d2'` is safe
      have hmem : c ∈ b :: d2' := List.mem_of_mem_getLast? hc
      exact hnotWs c (hs2 c hmem)
  have hne : String.mk L ≠ "" := by
    intro hmk
    have := congrArg String.data hmk
    simp only at this
    rw [hL] at this
    simp at this
  -- evaluate the scan
  have hscan : subDashGo L .norm [] = (a :: d1') ++ '–' :: b :: d2' := by
    have h0 : L = (a :: d1') ++ (w1 ++ h ++ w2 ++ b :: d2') := by
      rw [hL]
      simp [List.append_assoc]
    rw [h0, subDashGo_copies_safe _ _ _ hs1, List.append_nil]
    -- reach the `h1` state through the optional leading whitespace
    obtain ⟨htail, rfl, hht⟩ : ∃ htail, h = '-' :: htail ∧ (htail = [] ∨ htail = ['-']) := by
      rcases hh with rfl | rfl
      · exact ⟨[], rfl, Or.inl rfl⟩
      · exact ⟨['-'], rfl, Or.inr rfl⟩
    have hto_h1 : subDashGo (w1 ++ ('-' :: htail) ++ w2 ++ b :: d2') .norm
        ((a :: d1').reverse) =
        subDashGo (htail ++ w2 ++ b :: d2') .h1 ((a :: d1').reverse) := by
      cases w1 with
      | nil =>
        rw [List.nil_append, List.cons_append, List.cons_append]
        show subDashGo ('-' :: (htail ++ w2 ++ b :: d2')) .norm _ = _
        simp only [subDashGo]
        rw [if_neg (by decide), if_pos (by decide)]
      | cons e w1' =>
        have he := hw1 e (List.mem_cons_self e w1')
        rw [List.cons_append, List.cons_append, List.cons_append]
        show subDashGo (e :: (w1' ++ ('-' :: htail) ++ w2 ++ b :: d2')) .norm _ = _
        simp only [subDashGo]
        rw [if_pos he]
        rw [List.append_assoc w1', List.append_assoc w1']
        rw [subDashGo_w_ws w1' _ _ _ (fun c hc => hw1 c (List.mem_cons_of_mem e hc))]
        rw [List.cons_append, List.cons_append]
        show subDashGo ('-' :: (htail ++ w2 ++ b :: d2')) (.w _) _ = _
        simp only [subDashGo]
        rw [if_neg (by decide), if_pos (by decide)]
    rw [hto_h1, subDashGo_h1_finish htail w2 b d2' _ hht hw2 hsafe_b]
    -- copy the tail digits and finish
    have hnil : d2' = d2' ++ [] := (List.append_nil d2').symm
    conv_lhs => rw [hnil]
    rw [subDashGo_copies_safe d2' [] _ (fun c hc => hs2 c (List.mem_cons_of_mem b hc))]
    show (d2'.reverse ++ (b :: '–' :: (a :: d1').reverse)).reverse = _
    simp
  -- assemble
  have hps : pyStrip (String.mk L) = String.mk L := by
    unfold pyStrip
    show String.mk (pyStripL L) = String.mk L
    rw [hstrip]
  have hget : pyGet [("pages", String.mk L)] ["pages"] = String.mk L := by
    unfold pyGet pyGetD
    have he : eget [("pages", String.mk L)] "pages" = String.mk L := by
      simp [eget]
    show (if pyStrip (eget [("pages", String.mk L)] "pages") ≠ "" then
        pyStrip (eget [("pages", String.mk L)] "pages")
      else pyGetD [("pages", String.mk L)] [] "") = String.mk L
    rw [he, hps, if_pos hne]
  unfold pages_html
  show (if pyGet [("pages", String.mk L)] ["pages"] = "" then ""
    else "pp.&nbsp;" ++ pySubDashes (pyGet [("pages", String.mk L)] ["pages"])) = _
  rw [hget, if_neg hne]
  unfold pySubDashes
  show "pp.&nbsp;" ++ String.mk (subDashGo L .norm []) = _
  rw [hscan]

/-- C6 (witness): the inputs `100--110` and `100-110` both render as
`pp.&nbsp;100–110`. -/
theorem pages_range_endash_witness :
    pages_html [("pages", "100--110")] = "pp.&nbsp;" ++ String.mk ("100".data ++ '–' :: "110".data) ∧
      pages_html [("pages", "100-110")] = "pp.&nbsp;" ++ String.mk ("100".data ++ '–' :: "110".data) :=
  ⟨pages_range_endash "100".data "110".data [] [] ['-', '-'] (by decide) (by decide)
      (by decide) (by decide) (by decide) (by decide) (Or.inr rfl),
    pages_range_endash "100".data "110".data [] [] ['-'] (by decide) (by decide)
      (by decide) (by decide) (by decide) (by decide) (Or.inl rfl)⟩

/-! ## Claim C7: totality of rendering -/

/-- C7 (bug witness): full-bibliography rendering is *not* total over
well-formed entries: the year `²` passes the `isdigit` guard of the
sort key but `int()` rejects it, so `render_bibliography` raises
`ValueError` (modelled as `none`) instead of returning a string. -/
theorem render_bibliography_raises :
    pyIsdigit "²" = true ∧ pyIntOpt "²" = none ∧
      render_bibliography [exSuper] none = none := by
  refine ⟨by decide, by decide, ?_⟩
  rfl

/-! ## Claim C9: the CLI smoke-test counts -/

set_option maxRecDepth 20000 in
/-- C9 (bug witness): the counts the CLI prints are
`html.count("<dt>")`, but entries are rendered as
`<div class="bib-entry">` blocks and no `<dt>` ever occurs, so both
printed counts are `0` although each output renders one entry. -/
theorem cli_counts_dt_zero :
    cliCounts [exCli] = some (0, 0) ∧
      (visibleEntries [exCli] none).length = 1 ∧
      (visibleEntries [exCli] (some "Bond")).length = 1 ∧
      (render_bibliography [exCli] none).map
        (fun h => pyCount h "<div class=\"bib-entry\"") = some 1 := by
  decide

end Bib2Html
